import Mathlib

/-!
# Verification of the `bk` PNG decoder (`src/bk_png.h`)

This file shallowly embeds the PNG decode pipeline of `bk_png.h` into Lean:
bytes are natural numbers below 256, files are `List Nat`, the `FILE*`
cursor is modelled by consuming a prefix of the list, and every fallible C
function returning `0`/`NULL` becomes an `Option`-valued Lean function.
Machine arithmetic on `unsigned char` / `uint32_t` is `Nat` arithmetic with
explicit `% 256` / masking where the C types force a reduction.

Two external services the decoder consumes are not part of `src/`:

* the zlib inflater (`bkp_decompress_zlib` wraps the external `inflate`),
  which the specification treats as an opaque conforming service; it is a
  parameter `inflate : List Nat → Option (List Nat)` of the model, and a
  concrete stored-block inflater (modelled from the spec) instantiates it
  in concrete evaluations;
* the single-precision `powf` computation inside the gamma corrector,
  whose float rounding is not representable exactly; the per-channel byte
  map is a parameter `g2b : Nat → Nat → Nat` (gamma integer, value) of the
  model.  No claim below depends on the gamma-corrected channel values.
-/

namespace BkPng

/-- Bytes of the 4-byte chunk type `"IHDR"`. -/
def typIHDR : List Nat := [73, 72, 68, 82]

/-- Bytes of the 4-byte chunk type `"PLTE"`. -/
def typPLTE : List Nat := [80, 76, 84, 69]

/-- Bytes of the 4-byte chunk type `"IDAT"`. -/
def typIDAT : List Nat := [73, 68, 65, 84]

/-- Bytes of the 4-byte chunk type `"IEND"`. -/
def typIEND : List Nat := [73, 69, 78, 68]

/-- Bytes of the 4-byte chunk type `"gAMA"`. -/
def typgAMA : List Nat := [103, 65, 77, 65]

/-- All entries of the list are byte values (below 256). -/
def allBytes (l : List Nat) : Prop := ∀ b ∈ l, b < 256

instance (l : List Nat) : Decidable (allBytes l) := by
  unfold allBytes; infer_instance

/-! ## CRC-32 (`bkp_crc32`, lines 57–78)

The C function lazily fills a 256-entry table; entry `i` is eight steps of
the reflected polynomial `0xEDB88320`.  We compute the entry directly. -/

/-- One table-generation step: `rem & 1 ? (rem >> 1) ^ 0xEDB88320 : rem >> 1`. -/
def bkp_crc32_tabstep (rem : Nat) : Nat :=
  if rem % 2 = 1 then (rem >>> 1) ^^^ 0xEDB88320 else rem >>> 1

/-- Entry `i` of the CRC table: eight `bkp_crc32_tabstep` iterations on `i`. -/
def bkp_crc32_table (i : Nat) : Nat :=
  Nat.rec i (fun _ r => bkp_crc32_tabstep r) 8

/-- One data step: `crc = (crc >> 8) ^ table[(crc ^ buf[i]) & 0xFF]`. -/
def bkp_crc32_step (crc b : Nat) : Nat :=
  (crc >>> 8) ^^^ bkp_crc32_table ((crc ^^^ b) &&& 0xFF)

/-- Embedding of `bkp_crc32(crc, buf, len)`: complement, fold the data steps, complement.
All calls in the decoder pass `crc = 0`, so we fix the initial value. -/
def bkp_crc32 (buf : List Nat) : Nat :=
  (buf.foldl bkp_crc32_step 0xFFFFFFFF) ^^^ 0xFFFFFFFF

/-! ## Byte reader (`bkp_read_be32`, `bkp_read_chunk_header`)

`fread` into an `unsigned char` buffer can only yield bytes, so reads mask
with `% 256`; a short read returns `none`. -/

/-- Read `n` bytes from the stream: `none` on a short read, otherwise the
bytes (as `unsigned char` values) and the rest of the stream. -/
def bkp_read_bytes (s : List Nat) (n : Nat) : Option (List Nat × List Nat) :=
  if s.length < n then none else some ((s.take n).map (· % 256), s.drop n)

/-- Embedding of `bkp_read_be32` (lines 80–85): four bytes, big-endian. -/
def bkp_read_be32 (s : List Nat) : Option (Nat × List Nat) :=
  match bkp_read_bytes s 4 with
  | none => none
  | some (b, rest) =>
      some (b.getD 0 0 * 2 ^ 24 + b.getD 1 0 * 2 ^ 16 + b.getD 2 0 * 2 ^ 8 + b.getD 3 0, rest)

/-- Embedding of `bkp_read_chunk_header` (lines 87–92): big-endian length then 4 type bytes. -/
def bkp_read_chunk_header (s : List Nat) : Option (Nat × List Nat × List Nat) :=
  match bkp_read_be32 s with
  | none => none
  | some (len, rest) =>
      match bkp_read_bytes rest 4 with
      | none => none
      | some (ty, rest') => some (len, ty, rest')

/-- Big-endian 4-byte encoding of a 32-bit value (used to build chunk inputs). -/
def be32 (n : Nat) : List Nat :=
  [(n >>> 24) % 256, (n >>> 16) % 256, (n >>> 8) % 256, n % 256]

/-- On-disk layout of one chunk: length, type, data, stored CRC (§4.1). -/
def mkChunk (ty data : List Nat) (crc : Nat) : List Nat :=
  be32 data.length ++ ty ++ data ++ be32 crc

/-! ## Paeth predictor (`bkp_paeth_predictor`, lines 260–269) -/

/-- Embedding of `bkp_paeth_predictor(a, b, c)`; the `int` arithmetic is exact on `Int`,
and the result is one of the (byte-valued) arguments. -/
def bkp_paeth_predictor (a b c : Nat) : Nat :=
  let p : Int := (a : Int) + (b : Int) - (c : Int)
  let pa : Nat := (p - (a : Int)).natAbs
  let pb : Nat := (p - (b : Int)).natAbs
  let pc : Nat := (p - (c : Int)).natAbs
  if pa ≤ pb ∧ pa ≤ pc then a
  else if pb ≤ pc then b
  else c

/-- The Paeth predictor exactly as the specification words it (§4.7):
`p = a + b − c`, absolute differences, ties toward `a` then `b`. -/
def paethSpec (a b c : Nat) : Nat :=
  let p : Int := (a : Int) + (b : Int) - (c : Int)
  let pa : Nat := (p - (a : Int)).natAbs
  let pb : Nat := (p - (b : Int)).natAbs
  let pc : Nat := (p - (c : Int)).natAbs
  if pa ≤ pb ∧ pa ≤ pc then a
  else if pb ≤ pc then b
  else c

/-! ## Filter reconstruction (`bkp_filter_decode`, lines 271–320)

A row is reconstructed byte by byte; byte `i` sees the already
reconstructed `out_row[i - bpp]`, the previous reconstructed row
(`prev_row`, absent for the first row) and `prev_row[i - bpp]`.  The store
into the `unsigned char` output is the `% 256` reduction. -/

/-- Reconstruction of one byte for filter selectors 1–4
(`out_row[i] = curr_ptr[i] + predictor`, reduced mod 256). -/
def bkp_recon_byte (filter v left up upLeft : Nat) : Nat :=
  match filter with
  | 1 => (v + left) % 256
  | 2 => (v + up) % 256
  | 3 => (v + (left + up) / 2) % 256
  | 4 => (v + bkp_paeth_predictor left up upLeft) % 256
  | _ => v % 256

/-- The inner per-row loop for selectors 1–4: `acc` is the reconstructed
prefix `out_row[0..i)`, `prev` the previous reconstructed row when there is
one, `rest` the remaining filtered bytes of the row. -/
def bkp_recon_acc (filter bpp : Nat) (prev : Option (List Nat)) :
    List Nat → List Nat → List Nat
  | acc, [] => acc
  | acc, v :: rest =>
      let i := acc.length
      let left := if bpp ≤ i then acc.getD (i - bpp) 0 else 0
      let up := match prev with
        | some p => p.getD i 0
        | none => 0
      let upLeft := match prev with
        | some p => if bpp ≤ i then p.getD (i - bpp) 0 else 0
        | none => 0
      bkp_recon_acc filter bpp prev (acc ++ [bkp_recon_byte filter v left up upLeft]) rest

/-- The `switch (filter)` of one scanline: selector 0 is a `memcpy`,
selectors 1–4 run the reconstruction loop, anything else is fatal. -/
def bkp_decode_row (filter bpp : Nat) (prev : Option (List Nat)) (raw : List Nat) :
    Option (List Nat) :=
  match filter with
  | 0 => some raw
  | 1 => some (bkp_recon_acc 1 bpp prev [] raw)
  | 2 => some (bkp_recon_acc 2 bpp prev [] raw)
  | 3 => some (bkp_recon_acc 3 bpp prev [] raw)
  | 4 => some (bkp_recon_acc 4 bpp prev [] raw)
  | _ => none

/-- The row loop of `bkp_filter_decode` (also reused per sub-image by
`bkp_decode_adam7`, whose switch is identical with `prev_pass_row`):
each scanline is one filter byte followed by `stride` data bytes; the list
of reconstructed rows is returned.  The caller guarantees the stream holds
at least `h * (1 + stride)` bytes (`bkp_load_png`, line 582), so the
`take`/`headD` reads never actually fall off the end. -/
def bkp_filter_rows (bpp stride : Nat) :
    Nat → Option (List Nat) → List Nat → Option (List (List Nat))
  | 0, _, _ => some []
  | h + 1, prev, data =>
      let filter := data.headD 0 % 256
      let raw := ((data.drop 1).take stride).map (· % 256)
      match bkp_decode_row filter bpp prev raw with
      | none => none
      | some row =>
          match bkp_filter_rows bpp stride h (some row) (data.drop (1 + stride)) with
          | none => none
          | some rows => some (row :: rows)

/-- Embedding of `bkp_filter_decode(data, width, height, bpp, out)`: the flat output
buffer is the concatenation of the reconstructed scanlines. -/
def bkp_filter_decode (data : List Nat) (width height bpp : Nat) : Option (List Nat) :=
  match bkp_filter_rows bpp (width * bpp) height none data with
  | none => none
  | some rows => some rows.flatten

/-! ## Filter application (the encoder direction)

Modelled from the spec: the repository contains no PNG encoder; §8 states
"applying any filter f then reversing yields R", with the filter output
`filt[i] = (raw[i] − predictor) mod 256` and the left/up/up-left
predecessors taken from the raw data exactly as in §4.7. -/

/-- The predictor value for one byte (selector 1–4, 0 for None). -/
def filt_predictor (filter left up upLeft : Nat) : Nat :=
  match filter with
  | 1 => left
  | 2 => up
  | 3 => (left + up) / 2
  | 4 => bkp_paeth_predictor left up upLeft
  | _ => 0

/-- Modelled from the spec: filtering one row, byte by byte; `done` is the
raw prefix already consumed (source of the left predecessors), `prev` the
raw previous row of the same (sub-)image. -/
def filt_enc_acc (filter bpp : Nat) (prev : Option (List Nat)) :
    List Nat → List Nat → List Nat
  | _, [] => []
  | done, v :: rest =>
      let i := done.length
      let left := if bpp ≤ i then done.getD (i - bpp) 0 else 0
      let up := match prev with
        | some p => p.getD i 0
        | none => 0
      let upLeft := match prev with
        | some p => if bpp ≤ i then p.getD (i - bpp) 0 else 0
        | none => 0
      (v + 256 - filt_predictor filter left up upLeft) % 256 ::
        filt_enc_acc filter bpp prev (done ++ [v]) rest

/-- Modelled from the spec: the filtered stream for raw rows `rows` with
per-row selectors `fs` — each scanline is its selector byte followed by the
filtered row bytes. -/
def filt_encode (bpp : Nat) : Option (List Nat) → List Nat → List (List Nat) → List Nat
  | _, _, [] => []
  | prev, fs, row :: rows =>
      let f := fs.headD 0
      f :: filt_enc_acc f bpp prev [] row ++ filt_encode bpp (some row) (fs.drop 1) rows

/-! ## Palette (`bkp_palette`, `bkp_expand_palette`, lines 47–50 and 322–331) -/

/-- One RGBA palette entry. -/
structure PalEntry where
  r : Nat
  g : Nat
  b : Nat
  a : Nat
  deriving DecidableEq, Repr

/-- Embedding of `bkp_palette`: a fixed 256-entry RGBA table (zero-initialised in
`bkp_load_png`, line 533) plus the entry count of the last PLTE read. -/
structure bkp_palette where
  entries : List PalEntry
  size : Nat
  deriving DecidableEq, Repr

/-- The zero-initialised palette of `bkp_load_png` (line 533). -/
def palette0 : bkp_palette :=
  { entries := List.replicate 256 ⟨0, 0, 0, 0⟩, size := 0 }

/-- Embedding of `bkp_expand_palette(indexed, n_pixels, pal, out)`: each index is looked
up (clamped to 0 when at or beyond `pal.size`) and the 4 RGBA bytes of the
entry are emitted. -/
def bkp_expand_palette (indexed : List Nat) (n_pixels : Nat) (pal : bkp_palette) : List Nat :=
  (List.range n_pixels).flatMap fun i =>
    let idx0 := indexed.getD i 0
    let idx := if pal.size ≤ idx0 then 0 else idx0
    let e := pal.entries.getD idx ⟨0, 0, 0, 0⟩
    [e.r, e.g, e.b, e.a]

/-! ## Adam7 de-interlacing (`ADAM7_PASSES`, `bkp_decode_adam7`, lines 333–448)

Note that `bkp_read_ihdr` (line 124) rejects every nonzero interlace
method, so `bkp_load_png` can never actually reach this function; it is
embedded as written. -/

/-- The seven-pass table `ADAM7_PASSES` (lines 335–343):
starting x, starting y, x increment, y increment. -/
def ADAM7_PASSES : List (Nat × Nat × Nat × Nat) :=
  [(0, 0, 8, 8), (4, 0, 8, 8), (0, 4, 4, 8), (2, 0, 4, 4),
   (0, 2, 2, 4), (1, 0, 2, 2), (0, 1, 1, 2)]

/-- The values taken by `for (v = v0; v < bound; v += dv)`, in order. -/
def passRange (bound v0 dv : Nat) : List Nat :=
  (List.range bound).filter fun v => decide (v0 ≤ v ∧ (v - v0) % dv = 0)

/-- The grid positions written by the scatter loop of one pass
(lines 433–440): y outer, x inner. -/
def passPositions (width height : Nat) (p : Nat × Nat × Nat × Nat) : List (Nat × Nat) :=
  (passRange height p.2.1 p.2.2.2).flatMap fun y =>
    (passRange width p.1 p.2.2.1).map fun x => (x, y)

/-- All scatter positions of all seven passes, in pass order. -/
def adam7Positions (width height : Nat) : List (Nat × Nat) :=
  ADAM7_PASSES.flatMap (passPositions width height)

/-- The scatter step of one pass: position `(x, y)` with running index
`idx` receives bytes `filtered_pass[idx*bpp + c]` at `out[(y*width + x)*bpp + c]`. -/
def scatterPass (width bpp : Nat) (positions : List (Nat × Nat))
    (filteredPass out : List Nat) : List Nat :=
  positions.enum.foldl
    (fun o ixy =>
      (List.range bpp).foldl
        (fun o2 c =>
          o2.set ((ixy.2.2 * width + ixy.2.1) * bpp + c) (filteredPass.getD (ixy.1 * bpp + c) 0))
        o)
    out

/-- The per-pass loop of `bkp_decode_adam7` (lines 367–444): empty passes
consume nothing; otherwise `ph` scanlines of `pw * bpp` bytes are
reconstructed with the same per-row switch as `bkp_filter_decode` (with
`prev_pass_row` scoped to the sub-image) and scattered onto the canvas. -/
def bkp_adam7_go (width height bpp : Nat) :
    List (Nat × Nat × Nat × Nat) → List Nat → List Nat → Option (List Nat)
  | [], _, out => some out
  | p :: ps, data, out =>
      let pw := (passRange width p.1 p.2.2.1).length
      let ph := (passRange height p.2.1 p.2.2.2).length
      if pw = 0 ∨ ph = 0 then bkp_adam7_go width height bpp ps data out
      else
        match bkp_filter_rows bpp (pw * bpp) ph none data with
        | none => none
        | some rows =>
            bkp_adam7_go width height bpp ps (data.drop (ph * (1 + pw * bpp)))
              (scatterPass width bpp (passPositions width height p) rows.flatten out)

/-- Embedding of `bkp_decode_adam7(data, width, height, bpp, out)`.  The C output buffer
is `malloc`ed (uninitialised); since the seven passes cover every pixel
exactly once, modelling it as zero-initialised is observationally equal. -/
def bkp_decode_adam7 (data : List Nat) (width height bpp : Nat) : Option (List Nat) :=
  bkp_adam7_go width height bpp ADAM7_PASSES data (List.replicate (width * height * bpp) 0)

/-! ## Gamma correction (`bkp_apply_gamma_correction`, lines 471–482)

The gamma value is kept as the raw 4-byte integer `gamma_int` of the gAMA
chunk; the C float `gamma_int / 100000.0f` is positive exactly when
`gamma_int` is nonzero.  The per-channel byte map (`powf` plus `+0.5`
truncation, single-precision) is the model parameter `g2b gamma_int v`. -/

/-- Embedding of `bkp_apply_gamma_correction(pixels, w, h, gamma)`: the three colour
channels of each pixel pass through the byte map, alpha is untouched;
non-positive gamma leaves the buffer unchanged. -/
def bkp_apply_gamma_correction (g2b : Nat → Nat → Nat) (gammaInt : Nat)
    (pixels : List Nat) : List Nat :=
  if gammaInt = 0 then pixels
  else
    (List.range pixels.length).map fun j =>
      if j % 4 < 3 then g2b gammaInt (pixels.getD j 0) else pixels.getD j 0

/-! ## Channel normalization (`bkp_load_png`, lines 619–654) -/

/-- Bytes per pixel from the colour type (`bkp_load_png`, lines 569–579). -/
def bpp_of (colorType : Nat) : Option Nat :=
  match colorType with
  | 0 => some 1  -- BK_PNG_GRAY
  | 4 => some 2  -- BK_PNG_GRAY_ALPHA
  | 2 => some 3  -- BK_PNG_RGB
  | 3 => some 1  -- BK_PNG_INDEXED
  | 6 => some 4  -- BK_PNG_RGBA
  | _ => none

/-- The colour-type dispatch converting the reconstructed bytes to RGBA
(`bkp_load_png`, lines 619–654); `n` is `width * height`.  Indexed input
without an observed PLTE is fatal. -/
def bkp_normalize (colorType : Nat) (havePlte : Bool) (pal : bkp_palette)
    (filtered : List Nat) (n : Nat) : Option (List Nat) :=
  match colorType with
  | 3 =>
      if havePlte then some (bkp_expand_palette filtered n pal) else none
  | 0 =>
      some ((List.range n).flatMap fun i =>
        let v := filtered.getD i 0
        [v, v, v, 255])
  | 4 =>
      some ((List.range n).flatMap fun i =>
        [filtered.getD (i * 2) 0, filtered.getD (i * 2) 0,
         filtered.getD (i * 2) 0, filtered.getD (i * 2 + 1) 0])
  | 2 =>
      some ((List.range n).flatMap fun i =>
        [filtered.getD (i * 3) 0, filtered.getD (i * 3 + 1) 0,
         filtered.getD (i * 3 + 2) 0, 255])
  | 6 =>
      some ((List.range n).flatMap fun i =>
        [filtered.getD (i * 4) 0, filtered.getD (i * 4 + 1) 0,
         filtered.getD (i * 4 + 2) 0, filtered.getD (i * 4 + 3) 0])
  | _ => none

/-! ## Chunk handlers -/

/-- The parsed IHDR fields (lines 37–45). -/
structure bkp_ihdr where
  width : Nat
  height : Nat
  bit_depth : Nat
  color_type : Nat
  compression_method : Nat
  filter_method : Nat
  interlace_method : Nat
  deriving DecidableEq, Repr

/-- Embedding of `bkp_read_ihdr(f, ihdr)` (lines 94–127): chunk header, type and length
checks, 13 data bytes, CRC over `"IHDR" || data`, field decoding, then the
field constraints — note line 124 rejects every `interlace_method ≠ 0`. -/
def bkp_read_ihdr (s : List Nat) : Option (bkp_ihdr × List Nat) :=
  match bkp_read_chunk_header s with
  | none => none
  | some (length, ty, s1) =>
      if ty ≠ typIHDR then none
      else if length ≠ 13 then none
      else
        match bkp_read_bytes s1 13 with
        | none => none
        | some (data, s2) =>
            match bkp_read_be32 s2 with
            | none => none
            | some (crc_read, s3) =>
                if bkp_crc32 (typIHDR ++ data) ≠ crc_read then none
                else
                  let ihdr : bkp_ihdr :=
                    { width := data.getD 0 0 * 2 ^ 24 + data.getD 1 0 * 2 ^ 16 +
                        data.getD 2 0 * 2 ^ 8 + data.getD 3 0
                      height := data.getD 4 0 * 2 ^ 24 + data.getD 5 0 * 2 ^ 16 +
                        data.getD 6 0 * 2 ^ 8 + data.getD 7 0
                      bit_depth := data.getD 8 0
                      color_type := data.getD 9 0
                      compression_method := data.getD 10 0
                      filter_method := data.getD 11 0
                      interlace_method := data.getD 12 0 }
                  if ihdr.bit_depth ≠ 8 then none
                  else if ihdr.compression_method ≠ 0 then none
                  else if ihdr.filter_method ≠ 0 then none
                  else if ihdr.interlace_method ≠ 0 then none
                  else some (ihdr, s3)

/-- Overwrite the first `n` palette entries with the RGB triplets of
`data`, alpha 255 (lines 155–161); entries beyond `n` keep their old value. -/
def plteFill (data : List Nat) (n : Nat) (old : List PalEntry) : List PalEntry :=
  (List.range 256).map fun i =>
    if i < n then ⟨data.getD (i * 3) 0, data.getD (i * 3 + 1) 0, data.getD (i * 3 + 2) 0, 255⟩
    else old.getD i ⟨0, 0, 0, 0⟩

/-- Embedding of `bkp_read_plte(f, length, pal)` (lines 129–165): length must be a
multiple of 3 with at most 256 triplets; data then stored CRC are read and
the CRC over `"PLTE" || data` verified; the entries and size are updated. -/
def bkp_read_plte (s : List Nat) (length : Nat) (pal : bkp_palette) :
    Option (bkp_palette × List Nat) :=
  if length % 3 ≠ 0 then none
  else if 256 < length / 3 then none
  else
    match bkp_read_bytes s length with
    | none => none
    | some (data, s1) =>
        match bkp_read_be32 s1 with
        | none => none
        | some (crc_read, s2) =>
            if bkp_crc32 (typPLTE ++ data) ≠ crc_read then none
            else some ({ entries := plteFill data (length / 3) pal.entries,
                         size := length / 3 }, s2)

/-- Embedding of `bkp_collect_idat_data(f, idat_buf, length)` (lines 167–215): read the
payload and stored CRC, verify the CRC over `"IDAT" || data`, append the
payload.  On any failure the C code frees the accumulated buffer (without
nulling the dangling pointer — continuing would be a use-after-free); the
model returns `none` for the destroyed buffer. -/
def bkp_collect_idat_data (s : List Nat) (length : Nat) (idat : List Nat) :
    Option (List Nat × List Nat) :=
  match bkp_read_bytes s length with
  | none => none
  | some (data, s1) =>
      match bkp_read_be32 s1 with
      | none => none
      | some (crc_read, s2) =>
          if bkp_crc32 (typIDAT ++ data) ≠ crc_read then none
          else some (idat ++ data, s2)

/-- Embedding of `bkp_read_gama(f, out_gamma, length)` (lines 450–469): length must be
4; the CRC over `"gAMA" || data` is verified and the big-endian integer
returned (the C code divides by 100000.0f; the model keeps the integer). -/
def bkp_read_gama (s : List Nat) (length : Nat) : Option (Nat × List Nat) :=
  if length ≠ 4 then none
  else
    match bkp_read_bytes s 4 with
    | none => none
    | some (data, s1) =>
        match bkp_read_be32 s1 with
        | none => none
        | some (crc_read, s2) =>
            if bkp_crc32 (typgAMA ++ data) ≠ crc_read then none
            else some (data.getD 0 0 * 2 ^ 24 + data.getD 1 0 * 2 ^ 16 +
              data.getD 2 0 * 2 ^ 8 + data.getD 3 0, s2)

/-- Embedding of `bkp_skip_and_verify_chunk(f, length, type, idat_buf)` (lines 484–509).
`none`: a short read — the C `fail:` path frees the IDAT buffer and nulls
it.  `some (ok, rest)`: the payload and stored CRC were read; `ok` reports
whether the CRC over `type || data` matched, and the IDAT buffer is left
alone in either case. -/
def bkp_skip_and_verify_chunk (s : List Nat) (length : Nat) (ty : List Nat) :
    Option (Bool × List Nat) :=
  match bkp_read_bytes s length with
  | none => none
  | some (data, s1) =>
      match bkp_read_be32 s1 with
      | none => none
      | some (crc_read, s2) =>
          some (bkp_crc32 (ty ++ data) = crc_read, s2)

/-! ## The chunk loop and `bkp_load_png` (lines 511–667) -/

/-- The mutable state of the chunk loop in `bkp_load_png` (lines 533–537):
palette, `have_plte`, the gamma integer, and the IDAT accumulator
(`none` = the `NULL` / freed buffer). -/
structure LoopState where
  palette : bkp_palette
  havePlte : Bool
  gammaInt : Nat
  idat : Option (List Nat)
  deriving DecidableEq, Repr

/-- The initial loop state (lines 533–537). -/
def initState : LoopState :=
  { palette := palette0, havePlte := false, gammaInt := 0, idat := none }

/-- The `while (1)` chunk loop (lines 540–557): read a header, dispatch on
the type, stop on IEND (whose CRC is never read), on a header read failure
or on any handler failure.  The fuel is the remaining stream length plus
one at the call site; every iteration consumes at least the 8 header
bytes, so the fuel never runs out (exhaustion acts like a header-read
failure). -/
def bkp_chunk_loop : Nat → LoopState → List Nat → LoopState
  | 0, st, _ => st
  | fuel + 1, st, s =>
      match bkp_read_chunk_header s with
      | none => st
      | some (length, ty, s1) =>
          if ty = typPLTE then
            match bkp_read_plte s1 length st.palette with
            | none => st
            | some (pal, s2) =>
                bkp_chunk_loop fuel { st with palette := pal, havePlte := true } s2
          else if ty = typIDAT then
            match bkp_collect_idat_data s1 length (st.idat.getD []) with
            | none => { st with idat := none }
            | some (buf, s2) => bkp_chunk_loop fuel { st with idat := some buf } s2
          else if ty = typIEND then st
          else if ty = typgAMA then
            match bkp_read_gama s1 length with
            | none => st
            | some (g, s2) => bkp_chunk_loop fuel { st with gammaInt := g } s2
          else
            match bkp_skip_and_verify_chunk s1 length ty with
            | none => { st with idat := none }
            | some (false, _) => st
            | some (true, s2) => bkp_chunk_loop fuel st s2

/-- The PNG signature `89 50 4E 47 0D 0A 1A 0A` (line 515). -/
def pngSignature : List Nat := [137, 80, 78, 71, 13, 10, 26, 10]

/-- The decode stages of `bkp_load_png` after the chunk loop (lines
561–666), from the inflated stream to the final RGBA buffer: bpp lookup,
the inflated-size gate, filter reconstruction (straight or Adam7), channel
normalization. -/
def bkp_decode_stage (ihdr : bkp_ihdr) (havePlte : Bool) (pal : bkp_palette)
    (decompressed : List Nat) : Option (List Nat) :=
  match bpp_of ihdr.color_type with
  | none => none
  | some bpp =>
      if decompressed.length < (bpp * ihdr.width + 1) * ihdr.height then none
      else
        match
          (if ihdr.interlace_method = 0 then
            bkp_filter_decode decompressed ihdr.width ihdr.height bpp
          else if ihdr.interlace_method = 1 then
            bkp_decode_adam7 decompressed ihdr.width ihdr.height bpp
          else none) with
        | none => none
        | some filtered => bkp_normalize ihdr.color_type havePlte pal filtered
            (ihdr.width * ihdr.height)

/-- Embedding of `bkp_load_png(path, out_width, out_height, out_color_type)` (lines
511–667).  `inflate` stands for the external zlib service
(`bkp_decompress_zlib`), `g2b` for the float gamma byte map; `outs` models
the three out-parameters, which the C code assigns only at lines 658–660,
immediately before applying gamma and returning the buffer. -/
def bkp_load_png (inflate : List Nat → Option (List Nat)) (g2b : Nat → Nat → Nat)
    (file : List Nat) (outs : Nat × Nat × Nat) : Option (List Nat) × (Nat × Nat × Nat) :=
  if file.length < 8 then (none, outs)
  else if (file.take 8).map (· % 256) ≠ pngSignature then (none, outs)
  else
    match bkp_read_ihdr (file.drop 8) with
    | none => (none, outs)
    | some (ihdr, rest) =>
        let st := bkp_chunk_loop (rest.length + 1) initState rest
        match st.idat with
        | none => (none, outs)
        | some idatBytes =>
            match inflate idatBytes with
            | none => (none, outs)
            | some decompressed =>
                match bkp_decode_stage ihdr st.havePlte st.palette decompressed with
                | none => (none, outs)
                | some pixels =>
                    (some (bkp_apply_gamma_correction g2b st.gammaInt pixels),
                     (ihdr.width, ihdr.height, ihdr.color_type))

/-! ## A concrete conforming inflater (stored blocks)

Modelled from the spec: §6.2 requires only "a function
`inflate(compressed_bytes) → (plain_bytes, plain_len) | failure`
implementing zlib-wrapped DEFLATE per RFC 1950/1951"; the implementation
itself (zlib) is outside the repository.  This instance handles the
stored (uncompressed) block type, which is enough to inflate the streams
built below, and behaves as any conforming inflater must on them. -/

/-- Adler-32 of a byte sequence (the RFC 1950 checksum). -/
def adler32 (data : List Nat) : Nat :=
  let ab := data.foldl
    (fun ab v => ((ab.1 + v % 256) % 65521, (ab.2 + (ab.1 + v % 256)) % 65521)) (1, 0)
  ab.2 * 65536 + ab.1

/-- Modelled from the spec: the DEFLATE block layer restricted to stored
blocks — block header byte (BFINAL, BTYPE=00), LEN/NLEN, raw bytes. -/
def inflStoredBlocks : Nat → List Nat → Option (List Nat × List Nat)
  | 0, _ => none
  | fuel + 1, s =>
      match s with
      | [] => none
      | h :: rest =>
          let bfinal := h % 2
          let btype := h / 2 % 4
          if btype ≠ 0 then none
          else if rest.length < 4 then none
          else
            let len := rest.getD 0 0 % 256 + 256 * (rest.getD 1 0 % 256)
            let nlen := rest.getD 2 0 % 256 + 256 * (rest.getD 3 0 % 256)
            if len + nlen ≠ 65535 then none
            else
              let body := rest.drop 4
              if body.length < len then none
              else
                let chunk := (body.take len).map (· % 256)
                if bfinal = 1 then some (chunk, body.drop len)
                else
                  match inflStoredBlocks fuel (body.drop len) with
                  | none => none
                  | some (more, rem) => some (chunk ++ more, rem)

/-- Modelled from the spec: a conforming zlib inflater for streams whose
DEFLATE payload uses stored blocks — CMF/FLG header checks, the block
layer, then the Adler-32 trailer check. -/
def bkp_inflate_stored (s : List Nat) : Option (List Nat) :=
  if s.length < 2 then none
  else
    let cmf := s.getD 0 0 % 256
    let flg := s.getD 1 0 % 256
    if cmf % 16 ≠ 8 then none
    else if (cmf * 256 + flg) % 31 ≠ 0 then none
    else if flg / 32 % 2 ≠ 0 then none
    else
      match inflStoredBlocks (s.length + 1) (s.drop 2) with
      | none => none
      | some (out, rem) =>
          if rem.length < 4 then none
          else if (rem.take 4).map (· % 256) ≠ be32 (adler32 out) then none
          else some out

/-- A gamma byte map for concrete runs; the files below carry no gAMA
chunk, so it is never applied. -/
def g2bId : Nat → Nat → Nat := fun _ v => v

/-! ## Concrete input streams -/

/-- A chunk whose stored CRC is the correct CRC over `type || data`. -/
def mkChunkOk (ty data : List Nat) : List Nat :=
  mkChunk ty data (bkp_crc32 (ty ++ data))

/-- The 13 IHDR data bytes for the given fields. -/
def ihdrData (w h depth ct comp filt il : Nat) : List Nat :=
  be32 w ++ be32 h ++ [depth, ct, comp, filt, il]

/-- A well-formed IHDR chunk (correct length and CRC) for the given fields. -/
def ihdrChunk (w h depth ct comp filt il : Nat) : List Nat :=
  mkChunkOk typIHDR (ihdrData w h depth ct comp filt il)

/-- A zlib stream holding `payload` in a single stored block
(`payload.length ≤ 65535`). -/
def mkZlibStored (payload : List Nat) : List Nat :=
  let len := payload.length
  let nlen := 65535 - len
  [0x78, 0x01, 0x01, len % 256, len / 256 % 256, nlen % 256, nlen / 256 % 256] ++
    payload ++ be32 (adler32 payload)

/-- A well-formed 1×1 grayscale PNG: pixel value 127, filter None. -/
def fileGray1 : List Nat :=
  pngSignature ++ ihdrChunk 1 1 8 0 0 0 0 ++
    mkChunkOk typIDAT (mkZlibStored [0, 127]) ++ mkChunkOk typIEND []

/-- The same image, but after the (complete, valid) IDAT data a chunk of
unknown type `"teSt"` follows whose stored CRC `0` does not match. -/
def fileGray1BadTrailer : List Nat :=
  pngSignature ++ ihdrChunk 1 1 8 0 0 0 0 ++
    mkChunkOk typIDAT (mkZlibStored [0, 127]) ++ mkChunk [116, 101, 83, 116] [1, 2, 3] 0

/-- A well-formed 1×1 RGBA PNG: pixel (255, 0, 0, 255), filter None. -/
def fileRGBA1 : List Nat :=
  pngSignature ++ ihdrChunk 1 1 8 6 0 0 0 ++
    mkChunkOk typIDAT (mkZlibStored [0, 255, 0, 0, 255]) ++ mkChunkOk typIEND []

/-! ## Basic lemmas -/

theorem paeth_idem (x : Nat) : bkp_paeth_predictor x x x = x := by
  unfold bkp_paeth_predictor
  have h : ((x : Int) + x - x) = x := by ring
  simp [h]

theorem allBytes_getD {l : List Nat} (h : allBytes l) (i : Nat) : l.getD i 0 < 256 := by
  induction l generalizing i with
  | nil => simp [List.getD]
  | cons a t ih =>
      cases i with
      | zero => simpa using h a (by simp)
      | succ j =>
          simp only [List.getD_cons_succ]
          exact ih (fun b hb => h b (List.mem_cons_of_mem _ hb)) j

theorem paeth_lt {l u ul : Nat} (hl : l < 256) (hu : u < 256) (hul : ul < 256) :
    bkp_paeth_predictor l u ul < 256 := by
  simp only [bkp_paeth_predictor]
  split
  · exact hl
  · split
    · exact hu
    · exact hul

theorem filt_predictor_lt {f l u ul : Nat} (hl : l < 256) (hu : u < 256) (hul : ul < 256) :
    filt_predictor f l u ul < 256 := by
  match f with
  | 0 => simp only [filt_predictor]; omega
  | 1 => simpa only [filt_predictor] using hl
  | 2 => simpa only [filt_predictor] using hu
  | 3 => simp only [filt_predictor]; omega
  | 4 => simpa only [filt_predictor] using paeth_lt hl hu hul
  | n + 5 => simp only [filt_predictor]; omega

theorem recon_byte_of_enc {f v l u ul : Nat} (hf1 : 1 ≤ f) (hf4 : f ≤ 4)
    (hv : v < 256) (hl : l < 256) (hu : u < 256) (hul : ul < 256) :
    bkp_recon_byte f ((v + 256 - filt_predictor f l u ul) % 256) l u ul = v := by
  have hp : filt_predictor f l u ul < 256 := filt_predictor_lt hl hu hul
  match f with
  | 1 =>
      simp only [bkp_recon_byte, filt_predictor] at *
      omega
  | 2 =>
      simp only [bkp_recon_byte, filt_predictor] at *
      omega
  | 3 =>
      simp only [bkp_recon_byte, filt_predictor] at *
      omega
  | 4 =>
      simp only [bkp_recon_byte, filt_predictor] at *
      omega

theorem map_mod_of_allBytes {l : List Nat} (h : allBytes l) : l.map (· % 256) = l := by
  induction l with
  | nil => rfl
  | cons a t ih =>
      simp only [List.map_cons]
      have ha : a < 256 := h a (by simp)
      rw [Nat.mod_eq_of_lt ha, ih (fun b hb => h b (List.mem_cons_of_mem _ hb))]

/-! ## Filter roundtrip lemmas (towards C3) -/

theorem filt_enc_acc_length (f bpp : Nat) (prev : Option (List Nat)) :
    ∀ rest done, (filt_enc_acc f bpp prev done rest).length = rest.length := by
  intro rest
  induction rest with
  | nil => intro done; rfl
  | cons v r ih => intro done; simp [filt_enc_acc, ih]

theorem filt_enc_acc_allBytes (f bpp : Nat) (prev : Option (List Nat)) :
    ∀ rest done, allBytes (filt_enc_acc f bpp prev done rest) := by
  intro rest
  induction rest with
  | nil => intro done b hb; simp [filt_enc_acc] at hb
  | cons v r ih =>
      intro done b hb
      simp only [filt_enc_acc, List.mem_cons] at hb
      rcases hb with h | h
      · omega
      · exact ih (done ++ [v]) b h

theorem filt_enc_acc_zero {bpp : Nat} {prev : Option (List Nat)} :
    ∀ rest done, allBytes rest → filt_enc_acc 0 bpp prev done rest = rest := by
  intro rest
  induction rest with
  | nil => intro done _; rfl
  | cons v r ih =>
      intro done hb
      have hv : v < 256 := hb v (by simp)
      simp only [filt_enc_acc, filt_predictor]
      rw [ih (done ++ [v]) (fun b h => hb b (List.mem_cons_of_mem _ h))]
      congr 1
      omega

theorem opt_allBytes_getD {prev : Option (List Nat)}
    (h : ∀ p, prev = some p → allBytes p) (i : Nat) :
    (match prev with | some p => p.getD i 0 | none => 0) < 256 := by
  cases prev with
  | none => dsimp only; omega
  | some p => dsimp only; exact allBytes_getD (h p rfl) i

theorem recon_enc_row {f bpp : Nat} {prev : Option (List Nat)}
    (hprev : ∀ p, prev = some p → allBytes p) (hf1 : 1 ≤ f) (hf4 : f ≤ 4) :
    ∀ rest done, allBytes rest → allBytes done →
      bkp_recon_acc f bpp prev done (filt_enc_acc f bpp prev done rest) = done ++ rest := by
  intro rest
  induction rest with
  | nil => intro done _ _; simp [filt_enc_acc, bkp_recon_acc]
  | cons v r ih =>
      intro done hrest hdone
      have hv : v < 256 := hrest v (by simp)
      simp only [filt_enc_acc, bkp_recon_acc]
      have hleft : (if bpp ≤ done.length then done.getD (done.length - bpp) 0 else 0) < 256 := by
        split
        · exact allBytes_getD hdone _
        · omega
      have hup : (match prev with | some p => p.getD done.length 0 | none => 0) < 256 :=
        opt_allBytes_getD hprev _
      have hupl : (match prev with
          | some p => if bpp ≤ done.length then p.getD (done.length - bpp) 0 else 0
          | none => 0) < 256 := by
        cases prev with
        | none => dsimp only; omega
        | some p =>
            dsimp only
            split
            · exact allBytes_getD (hprev p rfl) _
            · omega
      rw [recon_byte_of_enc hf1 hf4 hv hleft hup hupl]
      rw [ih (done ++ [v]) (fun b hb => hrest b (List.mem_cons_of_mem _ hb))
          (by intro b hb
              rcases List.mem_append.mp hb with h | h
              · exact hdone b h
              · simp at h; omega)]
      simp

theorem bkp_filter_rows_cons (bpp stride h : Nat) (prev : Option (List Nat))
    (fb : Nat) (tail : List Nat) :
    bkp_filter_rows bpp stride (h + 1) prev (fb :: tail) =
      match bkp_decode_row (fb % 256) bpp prev ((tail.take stride).map (· % 256)) with
      | none => none
      | some row =>
          match bkp_filter_rows bpp stride h (some row) (tail.drop stride) with
          | none => none
          | some rows => some (row :: rows) := by
  have hdrop : (fb :: tail).drop (1 + stride) = tail.drop stride := by
    rw [Nat.add_comm, List.drop_succ_cons]
  simp only [bkp_filter_rows, List.headD_cons, List.drop_one, List.tail_cons, hdrop]

theorem filter_rows_encode {bpp stride : Nat} :
    ∀ (rows : List (List Nat)) (fs : List Nat) (prev : Option (List Nat)),
      (∀ p, prev = some p → allBytes p) →
      (∀ r ∈ rows, r.length = stride ∧ allBytes r) →
      fs.length = rows.length →
      (∀ f ∈ fs, f ≤ 4) →
      bkp_filter_rows bpp stride rows.length prev (filt_encode bpp prev fs rows) = some rows := by
  intro rows
  induction rows with
  | nil =>
      intro fs prev _ _ _ _
      rfl
  | cons r rows' ih =>
      intro fs prev hprev hrows hlen hfs
      cases fs with
      | nil => simp at hlen
      | cons f fs' =>
          have hf4 : f ≤ 4 := hfs f (by simp)
          have hr : r.length = stride := (hrows r (by simp)).1
          have hrb : allBytes r := (hrows r (by simp)).2
          have hencb : allBytes (filt_enc_acc f bpp prev [] r) :=
            filt_enc_acc_allBytes f bpp prev r []
          have hencl : (filt_enc_acc f bpp prev [] r).length = stride := by
            rw [filt_enc_acc_length]; exact hr
          have hdata : filt_encode bpp prev (f :: fs') (r :: rows') =
              f :: (filt_enc_acc f bpp prev [] r ++ filt_encode bpp (some r) fs' rows') := by
            simp [filt_encode]
          rw [List.length_cons, hdata, bkp_filter_rows_cons]
          have hmod : f % 256 = f := Nat.mod_eq_of_lt (by omega)
          have htake : (((filt_enc_acc f bpp prev [] r ++
              filt_encode bpp (some r) fs' rows')).take stride).map (· % 256) =
              filt_enc_acc f bpp prev [] r := by
            rw [← hencl, List.take_left, map_mod_of_allBytes hencb]
          have hdroptail : (filt_enc_acc f bpp prev [] r ++
              filt_encode bpp (some r) fs' rows').drop stride =
              filt_encode bpp (some r) fs' rows' := by
            rw [← hencl, List.drop_left]
          rw [hmod, htake, hdroptail]
          have hrow : bkp_decode_row f bpp prev (filt_enc_acc f bpp prev [] r) = some r := by
            match f, hf4 with
            | 0, _ =>
                simp only [bkp_decode_row]
                rw [filt_enc_acc_zero r [] hrb]
            | 1, _ =>
                simp only [bkp_decode_row]
                rw [recon_enc_row hprev (by omega) (by omega) r [] hrb (by intro b hb; simp at hb)]
                simp
            | 2, _ =>
                simp only [bkp_decode_row]
                rw [recon_enc_row hprev (by omega) (by omega) r [] hrb (by intro b hb; simp at hb)]
                simp
            | 3, _ =>
                simp only [bkp_decode_row]
                rw [recon_enc_row hprev (by omega) (by omega) r [] hrb (by intro b hb; simp at hb)]
                simp
            | 4, _ =>
                simp only [bkp_decode_row]
                rw [recon_enc_row hprev (by omega) (by omega) r [] hrb (by intro b hb; simp at hb)]
                simp
          rw [hrow]
          show (match bkp_filter_rows bpp stride rows'.length (some r)
              (filt_encode bpp (some r) fs' rows') with
            | none => none
            | some rows => some (r :: rows)) = some (r :: rows')
          rw [ih fs' (some r) (by intro p hp; cases hp; exact hrb)
            (fun q hq => hrows q (List.mem_cons_of_mem _ hq)) (by simpa using hlen)
            (fun g hg => hfs g (List.mem_cons_of_mem _ hg))]

theorem filter_decode_encode (width height bpp : Nat) (fs : List Nat) (rows : List (List Nat))
    (hh : rows.length = height) (hfsl : fs.length = height)
    (hrow : ∀ r ∈ rows, r.length = width * bpp ∧ allBytes r)
    (hfs : ∀ f ∈ fs, f ≤ 4) :
    bkp_filter_decode (filt_encode bpp none fs rows) width height bpp = some rows.flatten := by
  unfold bkp_filter_decode
  rw [← hh]
  rw [filter_rows_encode rows fs none (by intro p hp; cases hp) hrow (by omega) hfs]

/-! ## Claim theorems -/

/-- C5: `bkp_paeth_predictor` computes exactly the predictor of the
specification — `p = a + b − c`, `pa = |p−a|`, `pb = |p−b|`, `pc = |p−c|`,
returning `a` when `pa ≤ pb ∧ pa ≤ pc`, else `b` when `pb ≤ pc`, else `c`
(ties toward `a`, then `b`) — and `Paeth(x, x, x) = x` for every byte. -/
theorem claim_C5 :
    (∀ a b c : Nat, bkp_paeth_predictor a b c = paethSpec a b c) ∧
    (∀ x : Nat, bkp_paeth_predictor x x x = x) :=
  ⟨fun _ _ _ => rfl, paeth_idem⟩

/-- C3: filter reversal inverts filter application — for every geometry,
every matrix of raw byte rows and every per-row selector in {0,…,4},
filtering the rows (mod-256 arithmetic, raw-side predecessors) and then
running `bkp_filter_decode` on the resulting stream reconstructs the raw
bytes exactly. -/
theorem claim_C3 (width height bpp : Nat) (fs : List Nat) (rows : List (List Nat))
    (hw : 1 ≤ width) (hh1 : 1 ≤ height) (hb1 : 1 ≤ bpp) (hb4 : bpp ≤ 4)
    (hh : rows.length = height) (hfsl : fs.length = height)
    (hrow : ∀ r ∈ rows, r.length = width * bpp ∧ allBytes r)
    (hfs : ∀ f ∈ fs, f ≤ 4) :
    bkp_filter_decode (filt_encode bpp none fs rows) width height bpp = some rows.flatten :=
  filter_decode_encode width height bpp fs rows hh hfsl hrow hfs

/-- Witness for C3 at a concrete 2×2, 1 byte-per-pixel image with Paeth
and Average filters. -/
theorem claim_C3_witness :
    bkp_filter_decode (filt_encode 1 none [4, 3] [[100, 200], [7, 255]]) 2 2 1 =
      some [100, 200, 7, 255] := by
  have h := claim_C3 2 2 1 [4, 3] [[100, 200], [7, 255]] (by decide) (by decide) (by decide)
    (by decide) (by decide) (by decide) (by decide) (by decide)
  simpa using h

theorem count_range (a n : Nat) : (List.range n).count a = if a < n then 1 else 0 := by
  by_cases h : a < n
  · rw [if_pos h]
    exact List.count_eq_one_of_mem (List.nodup_range n) (List.mem_range.mpr h)
  · rw [if_neg h, List.count_eq_zero]
    simpa using h

theorem count_passRange (bound v0 dv v : Nat) :
    (passRange bound v0 dv).count v =
      if v < bound ∧ v0 ≤ v ∧ (v - v0) % dv = 0 then 1 else 0 := by
  unfold passRange
  by_cases hv : v < bound ∧ v0 ≤ v ∧ (v - v0) % dv = 0
  · rw [if_pos hv]
    apply List.count_eq_one_of_mem ((List.nodup_range bound).filter _)
    rw [List.mem_filter, List.mem_range]
    exact ⟨hv.1, by simp [hv.2.1, hv.2.2]⟩
  · rw [if_neg hv, List.count_eq_zero]
    intro hmem
    rw [List.mem_filter, List.mem_range] at hmem
    apply hv
    refine ⟨hmem.1, ?_⟩
    simpa using hmem.2

theorem count_map_pair (xs : List Nat) (a y0 : Nat) :
    ((xs.map fun x => (x, y0)).count (a, y0)) = xs.count a := by
  induction xs with
  | nil => rfl
  | cons x xs ih =>
      simp only [List.map_cons, List.count_cons, ih]
      by_cases hxa : x = a
      · simp [hxa]
      · simp [hxa, Prod.ext_iff]

theorem count_prod_pairs (xs ys : List Nat) (a b : Nat) :
    ((ys.flatMap fun y => xs.map fun x => (x, y)).count (a, b)) = ys.count b * xs.count a := by
  induction ys with
  | nil => simp
  | cons y0 ys ih =>
      simp only [List.flatMap_cons, List.count_append, ih, List.count_cons]
      by_cases hb : y0 = b
      · subst hb
        rw [count_map_pair]
        simp [Nat.add_mul]
        ring
      · have hmap : ((xs.map fun x => (x, y0)).count (a, b)) = 0 := by
          rw [List.count_eq_zero]
          intro hm
          rcases List.mem_map.mp hm with ⟨x, _, hx⟩
          exact hb (Prod.ext_iff.mp hx).2
        rw [hmap]
        have hne : (y0 == b) = false := by simp [hb]
        simp [hne]

theorem count_passPositions (width height : Nat) (p : Nat × Nat × Nat × Nat) (x y : Nat) :
    (passPositions width height p).count (x, y) =
      (passRange height p.2.1 p.2.2.2).count y * (passRange width p.1 p.2.2.1).count x :=
  count_prod_pairs _ _ x y

theorem adam7_cover (width height x y : Nat) (hx : x < width) (hy : y < height) :
    (adam7Positions width height).count (x, y) = 1 := by
  unfold adam7Positions ADAM7_PASSES
  simp only [List.flatMap_cons, List.flatMap_nil, List.append_nil, List.count_append]
  rw [count_passPositions, count_passPositions, count_passPositions, count_passPositions,
    count_passPositions, count_passPositions, count_passPositions]
  simp only [count_passRange]
  have c1y : (y < height ∧ 0 ≤ y ∧ (y - 0) % 8 = 0) ↔ y % 8 % 8 = 0 := by omega
  have c3y : (y < height ∧ 4 ≤ y ∧ (y - 4) % 8 = 0) ↔ y % 8 % 8 = 4 := by omega
  have c4y : (y < height ∧ 0 ≤ y ∧ (y - 0) % 4 = 0) ↔ y % 8 % 4 = 0 := by omega
  have c5y : (y < height ∧ 2 ≤ y ∧ (y - 2) % 4 = 0) ↔ y % 8 % 4 = 2 := by omega
  have c6y : (y < height ∧ 0 ≤ y ∧ (y - 0) % 2 = 0) ↔ y % 8 % 2 = 0 := by omega
  have c7y : (y < height ∧ 1 ≤ y ∧ (y - 1) % 2 = 0) ↔ y % 8 % 2 = 1 := by omega
  have c1x : (x < width ∧ 0 ≤ x ∧ (x - 0) % 8 = 0) ↔ x % 8 % 8 = 0 := by omega
  have c2x : (x < width ∧ 4 ≤ x ∧ (x - 4) % 8 = 0) ↔ x % 8 % 8 = 4 := by omega
  have c3x : (x < width ∧ 0 ≤ x ∧ (x - 0) % 4 = 0) ↔ x % 8 % 4 = 0 := by omega
  have c4x : (x < width ∧ 2 ≤ x ∧ (x - 2) % 4 = 0) ↔ x % 8 % 4 = 2 := by omega
  have c5x : (x < width ∧ 0 ≤ x ∧ (x - 0) % 2 = 0) ↔ x % 8 % 2 = 0 := by omega
  have c6x : (x < width ∧ 1 ≤ x ∧ (x - 1) % 2 = 0) ↔ x % 8 % 2 = 1 := by omega
  have c7x : (x < width ∧ 0 ≤ x ∧ (x - 0) % 1 = 0) ↔ x % 8 % 1 = 0 := by omega
  simp only [c1y, c3y, c4y, c5y, c6y, c7y, c1x, c2x, c3x, c4x, c5x, c6x, c7x]
  have ha : x % 8 < 8 := Nat.mod_lt x (by norm_num)
  have hb : y % 8 < 8 := Nat.mod_lt y (by norm_num)
  generalize x % 8 = a at *
  generalize y % 8 = b at *
  interval_cases a <;> interval_cases b <;> decide

/-- C7: over all seven Adam7 passes the scatter positions
`(x₀ + i·Δx, y₀ + j·Δy)` of `bkp_decode_adam7` cover every cell of the
`width × height` grid exactly once — no gaps and no duplicates. -/
theorem claim_C7 (width height x y : Nat) (hw : 1 ≤ width) (hh : 1 ≤ height)
    (hx : x < width) (hy : y < height) :
    (adam7Positions width height).count (x, y) = 1 :=
  adam7_cover width height x y hx hy

/-- Witness for C7 on the 8×8 grid at cell (3, 5). -/
theorem claim_C7_witness : (adam7Positions 8 8).count (3, 5) = 1 :=
  claim_C7 8 8 3 5 (by decide) (by decide) (by decide) (by decide)

theorem flat4_length (g : Nat → List Nat) (h4 : ∀ j, (g j).length = 4) :
    ∀ n, ((List.range n).flatMap g).length = 4 * n := by
  intro n
  induction n with
  | zero => rfl
  | succ m ih =>
      rw [List.range_succ, List.flatMap_append, List.length_append, ih]
      simp [h4 m]
      omega

theorem flat4_getD (g : Nat → List Nat) (h4 : ∀ j, (g j).length = 4) :
    ∀ n i c, i < n → c < 4 → ((List.range n).flatMap g).getD (4 * i + c) 0 = (g i).getD c 0 := by
  intro n
  induction n with
  | zero => intro i c hi _; omega
  | succ m ih =>
      intro i c hi hc
      rw [List.range_succ, List.flatMap_append]
      rcases Nat.lt_or_ge i m with him | him
      · rw [List.getD_append]
        · exact ih i c him hc
        · rw [flat4_length g h4]
          omega
      · have him' : i = m := by omega
        subst him'
        rw [List.getD_append_right]
        · rw [flat4_length g h4]
          have : 4 * i + c - 4 * i = c := by omega
          simp only [this]
          simp
        · rw [flat4_length g h4]
          omega

theorem normalize_length {ct : Nat} {hp : Bool} {pal : bkp_palette}
    {filtered : List Nat} {n : Nat} {px : List Nat}
    (h : bkp_normalize ct hp pal filtered n = some px) : px.length = 4 * n := by
  match ct, h with
  | 3, h =>
      simp only [bkp_normalize] at h
      split at h
      · cases h
        unfold bkp_expand_palette
        apply flat4_length
        intro j
        rfl
      · cases h
  | 0, h =>
      simp only [bkp_normalize] at h
      cases h
      apply flat4_length
      intro j
      rfl
  | 4, h =>
      simp only [bkp_normalize] at h
      cases h
      apply flat4_length
      intro j
      rfl
  | 2, h =>
      simp only [bkp_normalize] at h
      cases h
      apply flat4_length
      intro j
      rfl
  | 6, h =>
      simp only [bkp_normalize] at h
      cases h
      apply flat4_length
      intro j
      rfl

theorem gamma_length (g2b : Nat → Nat → Nat) (gammaInt : Nat) (px : List Nat) :
    (bkp_apply_gamma_correction g2b gammaInt px).length = px.length := by
  unfold bkp_apply_gamma_correction
  split
  · rfl
  · simp

theorem getD_map_range (f : Nat → Nat) (n i : Nat) :
    ((List.range n).map f).getD i 0 = if i < n then f i else 0 := by
  rw [List.getD_eq_getD_get?, List.get?_map]
  rcases Nat.lt_or_ge i n with h | h
  · rw [List.get?_range h, if_pos h]
    rfl
  · rw [if_neg (by omega), List.get?_eq_none.mpr (by simpa using h)]
    rfl

theorem gamma_alpha (g2b : Nat → Nat → Nat) (gammaInt : Nat) (px : List Nat) (i : Nat) :
    (bkp_apply_gamma_correction g2b gammaInt px).getD (4 * i + 3) 0 = px.getD (4 * i + 3) 0 := by
  unfold bkp_apply_gamma_correction
  split
  · rfl
  · rw [getD_map_range]
    have hmod : (4 * i + 3) % 4 = 3 := by omega
    rw [hmod]
    split
    · simp
    · rename_i hge
      rw [List.getD_eq_getD_get?, List.get?_eq_none.mpr (by omega)]
      rfl

theorem getD_map_range_ent (f : Nat → PalEntry) (d : PalEntry) (n i : Nat) :
    ((List.range n).map f).getD i d = if i < n then f i else d := by
  rw [List.getD_eq_getD_get?, List.get?_map]
  rcases Nat.lt_or_ge i n with h | h
  · rw [List.get?_range h, if_pos h]
    rfl
  · rw [if_neg (by omega), List.get?_eq_none.mpr (by simpa using h)]
    rfl

theorem plte_alpha {s : List Nat} {L : Nat} {pal pal' : bkp_palette} {r : List Nat}
    (h : bkp_read_plte s L pal = some (pal', r)) :
    pal'.size ≤ 256 ∧ ∀ j, j < pal'.size → (pal'.entries.getD j ⟨0, 0, 0, 0⟩).a = 255 := by
  unfold bkp_read_plte at h
  split at h
  · cases h
  · split at h
    · cases h
    · rename_i hmul hle
      split at h
      · cases h
      · rename_i data s1 heq
        split at h
        · cases h
        · rename_i crc s2 heq2
          split at h
          · cases h
          · cases h
            refine ⟨?_, ?_⟩
            · dsimp only
              omega
            · intro j hj
              dsimp only at hj ⊢
              simp only [plteFill, getD_map_range_ent]
              rw [if_pos (by omega : j < 256), if_pos (by omega : j < L / 3)]

theorem expand_palette_pixel (indexed : List Nat) (n : Nat) (pal : bkp_palette)
    (i : Nat) (hi : i < n) :
    ∀ c, c < 4 →
      (bkp_expand_palette indexed n pal).getD (4 * i + c) 0 =
        (let idx0 := indexed.getD i 0
         let idx := if pal.size ≤ idx0 then 0 else idx0
         let e := pal.entries.getD idx ⟨0, 0, 0, 0⟩
         [e.r, e.g, e.b, e.a]).getD c 0 := by
  intro c hc
  unfold bkp_expand_palette
  apply flat4_getD
  · intro j
    rfl
  · exact hi
  · exact hc

/-- C8 (amended): alpha is 255 wherever the decoder itself stores it —
Gray and RGB pixels always get alpha 255; PLTE entries are stored with
alpha 255, so Indexed pixels get alpha 255 whenever the recorded palette
is nonempty; GrayAlpha and RGBA pixels receive the source alpha byte
unchanged (so their alpha can equal 255 even though the source has an
alpha channel); gamma correction never touches the alpha byte. -/
theorem claim_C8_amended :
    (∀ (s : List Nat) (L : Nat) (pal pal' : bkp_palette) (r : List Nat),
       bkp_read_plte s L pal = some (pal', r) →
       ∀ j, j < pal'.size → (pal'.entries.getD j ⟨0, 0, 0, 0⟩).a = 255) ∧
    (∀ (g2b : Nat → Nat → Nat) (gInt ct : Nat) (hp : Bool) (pal : bkp_palette)
       (filtered : List Nat) (n : Nat) (px : List Nat),
       bkp_normalize ct hp pal filtered n = some px →
       ∀ i, i < n →
         ((ct = 0 ∨ ct = 2) →
            (bkp_apply_gamma_correction g2b gInt px).getD (4 * i + 3) 0 = 255) ∧
         (ct = 3 → 1 ≤ pal.size →
            (∀ j, j < pal.size → (pal.entries.getD j ⟨0, 0, 0, 0⟩).a = 255) →
            (bkp_apply_gamma_correction g2b gInt px).getD (4 * i + 3) 0 = 255) ∧
         (ct = 4 →
            (bkp_apply_gamma_correction g2b gInt px).getD (4 * i + 3) 0 =
              filtered.getD (i * 2 + 1) 0) ∧
         (ct = 6 →
            (bkp_apply_gamma_correction g2b gInt px).getD (4 * i + 3) 0 =
              filtered.getD (i * 4 + 3) 0)) := by
  constructor
  · intro s L pal pal' r h j hj
    exact (plte_alpha h).2 j hj
  · intro g2b gInt ct hp pal filtered n px h i hi
    refine ⟨?_, ?_, ?_, ?_⟩
    · rintro (rfl | rfl)
      · simp only [bkp_normalize] at h
        cases h
        rw [gamma_alpha]
        rw [flat4_getD (fun i => let v := filtered.getD i 0; [v, v, v, 255])
          (fun j => rfl) n i 3 hi (by omega)]
        rfl
      · simp only [bkp_normalize] at h
        cases h
        rw [gamma_alpha]
        rw [flat4_getD (fun i => [filtered.getD (i * 3) 0, filtered.getD (i * 3 + 1) 0,
          filtered.getD (i * 3 + 2) 0, 255]) (fun j => rfl) n i 3 hi (by omega)]
        rfl
    · rintro rfl hsize halpha
      simp only [bkp_normalize] at h
      split at h
      · cases h
        rw [gamma_alpha]
        rw [expand_palette_pixel filtered n pal i hi 3 (by omega)]
        dsimp only
        split
        · exact halpha 0 (by omega)
        · rename_i hlt
          exact halpha (filtered.getD i 0) (by omega)
      · cases h
    · rintro rfl
      simp only [bkp_normalize] at h
      cases h
      rw [gamma_alpha]
      rw [flat4_getD (fun i => [filtered.getD (i * 2) 0, filtered.getD (i * 2) 0,
        filtered.getD (i * 2) 0, filtered.getD (i * 2 + 1) 0]) (fun j => rfl) n i 3 hi (by omega)]
      rfl
    · rintro rfl
      simp only [bkp_normalize] at h
      cases h
      rw [gamma_alpha]
      rw [flat4_getD (fun i => [filtered.getD (i * 4) 0, filtered.getD (i * 4 + 1) 0,
        filtered.getD (i * 4 + 2) 0, filtered.getD (i * 4 + 3) 0])
        (fun j => rfl) n i 3 hi (by omega)]
      rfl

/-- C9: for an indexed image with PLTE observed, normalization cannot fail
(and without PLTE it is fatal), and every pixel whose palette index is at
or beyond `palette.size` is expanded from palette entry 0. -/
theorem claim_C9 (indexed : List Nat) (n : Nat) (pal : bkp_palette) (i : Nat)
    (hi : i < n) (hout : pal.size ≤ indexed.getD i 0) :
    bkp_normalize 3 true pal indexed n = some (bkp_expand_palette indexed n pal) ∧
    bkp_normalize 3 false pal indexed n = none ∧
    ((bkp_expand_palette indexed n pal).getD (4 * i) 0 =
       (pal.entries.getD 0 ⟨0, 0, 0, 0⟩).r ∧
     (bkp_expand_palette indexed n pal).getD (4 * i + 1) 0 =
       (pal.entries.getD 0 ⟨0, 0, 0, 0⟩).g ∧
     (bkp_expand_palette indexed n pal).getD (4 * i + 2) 0 =
       (pal.entries.getD 0 ⟨0, 0, 0, 0⟩).b ∧
     (bkp_expand_palette indexed n pal).getD (4 * i + 3) 0 =
       (pal.entries.getD 0 ⟨0, 0, 0, 0⟩).a) := by
  refine ⟨by simp [bkp_normalize], by simp [bkp_normalize], ?_, ?_, ?_, ?_⟩
  · rw [show 4 * i = 4 * i + 0 by omega]
    rw [expand_palette_pixel indexed n pal i hi 0 (by omega)]
    dsimp only
    rw [if_pos hout]
    rfl
  · rw [expand_palette_pixel indexed n pal i hi 1 (by omega)]
    dsimp only
    rw [if_pos hout]
    rfl
  · rw [expand_palette_pixel indexed n pal i hi 2 (by omega)]
    dsimp only
    rw [if_pos hout]
    rfl
  · rw [expand_palette_pixel indexed n pal i hi 3 (by omega)]
    dsimp only
    rw [if_pos hout]
    rfl

theorem stage_length {ihdr : bkp_ihdr} {hp : Bool} {pal : bkp_palette}
    {d pixels : List Nat}
    (h : bkp_decode_stage ihdr hp pal d = some pixels) :
    pixels.length = 4 * (ihdr.width * ihdr.height) := by
  unfold bkp_decode_stage at h
  split at h
  · cases h
  · split at h
    · cases h
    · split at h
      · cases h
      · exact normalize_length h

theorem load_eq_of (inflate : List Nat → Option (List Nat)) (g2b : Nat → Nat → Nat)
    (file : List Nat) (outs : Nat × Nat × Nat) (ihdr : bkp_ihdr)
    (rest ib d pixels : List Nat)
    (h8 : ¬ file.length < 8)
    (hsig : (file.take 8).map (· % 256) = pngSignature)
    (hih : bkp_read_ihdr (file.drop 8) = some (ihdr, rest))
    (hidat : (bkp_chunk_loop (rest.length + 1) initState rest).idat = some ib)
    (hinf : inflate ib = some d)
    (hstage : bkp_decode_stage ihdr (bkp_chunk_loop (rest.length + 1) initState rest).havePlte
      (bkp_chunk_loop (rest.length + 1) initState rest).palette d = some pixels) :
    bkp_load_png inflate g2b file outs =
      (some (bkp_apply_gamma_correction g2b
          (bkp_chunk_loop (rest.length + 1) initState rest).gammaInt pixels),
       (ihdr.width, ihdr.height, ihdr.color_type)) := by
  unfold bkp_load_png
  rw [if_neg h8, if_neg (by simp [hsig]), hih]
  dsimp only
  rw [hidat]
  dsimp only
  rw [hinf]
  dsimp only
  rw [hstage]

theorem load_success_inv (inflate : List Nat → Option (List Nat)) (g2b : Nat → Nat → Nat)
    (file : List Nat) (outs : Nat × Nat × Nat) (px : List Nat)
    (h : (bkp_load_png inflate g2b file outs).1 = some px) :
    ∃ ihdr rest ib d pixels,
      bkp_read_ihdr (file.drop 8) = some (ihdr, rest) ∧
      (bkp_chunk_loop (rest.length + 1) initState rest).idat = some ib ∧
      inflate ib = some d ∧
      bkp_decode_stage ihdr (bkp_chunk_loop (rest.length + 1) initState rest).havePlte
        (bkp_chunk_loop (rest.length + 1) initState rest).palette d = some pixels ∧
      bkp_load_png inflate g2b file outs =
        (some (bkp_apply_gamma_correction g2b
            (bkp_chunk_loop (rest.length + 1) initState rest).gammaInt pixels),
         (ihdr.width, ihdr.height, ihdr.color_type)) ∧
      px = bkp_apply_gamma_correction g2b
        (bkp_chunk_loop (rest.length + 1) initState rest).gammaInt pixels := by
  unfold bkp_load_png at h
  split at h
  · simp at h
  split at h
  · simp at h
  rename_i h8 hsig
  have hih : ∃ pr, bkp_read_ihdr (file.drop 8) = some pr := by
    cases hh : bkp_read_ihdr (file.drop 8) with
    | none => rw [hh] at h; simp at h
    | some pr => exact ⟨pr, rfl⟩
  obtain ⟨⟨ihdr, rest⟩, hih⟩ := hih
  rw [hih] at h
  dsimp only at h
  have hidat : ∃ ib, (bkp_chunk_loop (rest.length + 1) initState rest).idat = some ib := by
    cases hh : (bkp_chunk_loop (rest.length + 1) initState rest).idat with
    | none => rw [hh] at h; simp at h
    | some ib => exact ⟨ib, rfl⟩
  obtain ⟨ib, hidat⟩ := hidat
  rw [hidat] at h
  dsimp only at h
  have hinf : ∃ d, inflate ib = some d := by
    cases hh : inflate ib with
    | none => rw [hh] at h; simp at h
    | some d => exact ⟨d, rfl⟩
  obtain ⟨d, hinf⟩ := hinf
  rw [hinf] at h
  dsimp only at h
  have hstage : ∃ pixels,
      bkp_decode_stage ihdr (bkp_chunk_loop (rest.length + 1) initState rest).havePlte
        (bkp_chunk_loop (rest.length + 1) initState rest).palette d = some pixels := by
    cases hh : bkp_decode_stage ihdr
        (bkp_chunk_loop (rest.length + 1) initState rest).havePlte
        (bkp_chunk_loop (rest.length + 1) initState rest).palette d with
    | none => rw [hh] at h; simp at h
    | some pixels => exact ⟨pixels, rfl⟩
  obtain ⟨pixels, hstage⟩ := hstage
  rw [hstage] at h
  dsimp only at h
  have hpx : px = bkp_apply_gamma_correction g2b
      (bkp_chunk_loop (rest.length + 1) initState rest).gammaInt pixels := by
    cases h
    rfl
  exact ⟨ihdr, rest, ib, d, pixels, hih, hidat, hinf, hstage,
    load_eq_of inflate g2b file outs ihdr rest ib d pixels h8 (by simpa using hsig)
      hih hidat hinf hstage, hpx⟩

theorem load_fail_shape (inflate : List Nat → Option (List Nat)) (g2b : Nat → Nat → Nat)
    (file : List Nat) (outs : Nat × Nat × Nat) :
    bkp_load_png inflate g2b file outs = (none, outs) ∨
    ∃ px, (bkp_load_png inflate g2b file outs).1 = some px := by
  unfold bkp_load_png
  repeat' first | split | dsimp only
  all_goals first
    | exact Or.inl rfl
    | exact Or.inr ⟨_, rfl⟩

/-- C4: whenever `bkp_load_png` succeeds, the returned buffer holds exactly
`4 * width * height` bytes with `width`/`height` as declared in the file's
IHDR (and written to the out-parameters); a failure returns `none`, never a
partial buffer. -/
theorem claim_C4 (inflate : List Nat → Option (List Nat)) (g2b : Nat → Nat → Nat)
    (file : List Nat) (outs : Nat × Nat × Nat) (px : List Nat)
    (h : (bkp_load_png inflate g2b file outs).1 = some px) :
    ∃ ihdr rest,
      bkp_read_ihdr (file.drop 8) = some (ihdr, rest) ∧
      (bkp_load_png inflate g2b file outs).2 = (ihdr.width, ihdr.height, ihdr.color_type) ∧
      px.length = 4 * (ihdr.width * ihdr.height) := by
  obtain ⟨ihdr, rest, ib, d, pixels, hih, hidat, hinf, hstage, heq, hpx⟩ :=
    load_success_inv inflate g2b file outs px h
  refine ⟨ihdr, rest, hih, ?_, ?_⟩
  · rw [heq]
  · rw [hpx, gamma_length, stage_length hstage]

/-- Witness for C4 on a concrete 1×1 RGBA file. -/
theorem claim_C4_witness :
    ∃ (ihdr : bkp_ihdr) (rest : List Nat),
      bkp_read_ihdr (fileRGBA1.drop 8) = some (ihdr, rest) ∧
      (bkp_load_png bkp_inflate_stored g2bId fileRGBA1 (0, 0, 0)).2 =
        (ihdr.width, ihdr.height, ihdr.color_type) ∧
      ([255, 0, 0, 255] : List Nat).length = 4 * (ihdr.width * ihdr.height) :=
  claim_C4 bkp_inflate_stored g2bId fileRGBA1 (0, 0, 0) [255, 0, 0, 255] (by decide)

/-- C10: whenever `bkp_load_png` fails, the out-parameters `out_width`,
`out_height`, `out_color_type` keep the caller's prior values — they are
written only on the success path. -/
theorem claim_C10 (inflate : List Nat → Option (List Nat)) (g2b : Nat → Nat → Nat)
    (file : List Nat) (outs : Nat × Nat × Nat)
    (h : (bkp_load_png inflate g2b file outs).1 = none) :
    (bkp_load_png inflate g2b file outs).2 = outs := by
  rcases load_fail_shape inflate g2b file outs with heq | ⟨px, hpx⟩
  · rw [heq]
  · rw [hpx] at h
    cases h

/-- Witness for C10 on the empty input file. -/
theorem claim_C10_witness :
    (bkp_load_png bkp_inflate_stored g2bId [] (5, 6, 7)).2 = (5, 6, 7) :=
  claim_C10 bkp_inflate_stored g2bId [] (5, 6, 7) (by decide)

/-- C1 (code evaluation): `bkp_read_ihdr` accepts a well-formed IHDR with
interlace method 0 but rejects the identical IHDR with interlace method 1
(line 124 requires `interlace_method == 0`), and every successful IHDR
parse has interlace method 0 — so `bkp_load_png` can never reach the
`bkp_decode_adam7` dispatch for interlace method 1 (lines 603–604). -/
theorem claim_C1 :
    bkp_read_ihdr (ihdrChunk 1 1 8 0 0 0 0) =
      some ({ width := 1, height := 1, bit_depth := 8, color_type := 0,
              compression_method := 0, filter_method := 0, interlace_method := 0 }, []) ∧
    bkp_read_ihdr (ihdrChunk 1 1 8 0 0 0 1) = none ∧
    (∀ (s : List Nat) (ihdr : bkp_ihdr) (rest : List Nat),
       bkp_read_ihdr s = some (ihdr, rest) → ihdr.interlace_method = 0) := by
  refine ⟨by decide, by decide, ?_⟩
  intro s ihdr rest h
  unfold bkp_read_ihdr at h
  split at h
  · cases h
  split at h
  · cases h
  split at h
  · cases h
  split at h
  · cases h
  split at h
  · cases h
  split at h
  · cases h
  dsimp only at h
  split at h
  · cases h
  split at h
  · cases h
  split at h
  · cases h
  split at h
  · cases h
  rename_i hil
  cases h
  simpa using hil

/-- Witness for C1's universally quantified part at the concrete IHDR. -/
theorem claim_C1_witness :
    ({ width := 1, height := 1, bit_depth := 8, color_type := 0,
       compression_method := 0, filter_method := 0,
       interlace_method := 0 } : bkp_ihdr).interlace_method = 0 :=
  claim_C1.2.2 (ihdrChunk 1 1 8 0 0 0 0) _ [] (by decide)

theorem be32_allBytes (n : Nat) : allBytes (be32 n) := by
  intro b hb
  simp only [be32, List.mem_cons] at hb
  rcases hb with h | h | h | h | h
  all_goals first | (subst h; omega) | simp at h

theorem be32_length (n : Nat) : (be32 n).length = 4 := rfl

theorem read_bytes_exact {l : List Nat} (r : List Nat) (hb : allBytes l) :
    bkp_read_bytes (l ++ r) l.length = some (l, r) := by
  unfold bkp_read_bytes
  rw [if_neg (by simp)]
  rw [List.take_left, List.drop_left, map_mod_of_allBytes hb]

theorem read_bytes_exact_len {l : List Nat} (r : List Nat) (n : Nat) (hb : allBytes l)
    (hn : l.length = n) :
    bkp_read_bytes (l ++ r) n = some (l, r) := by
  subst hn
  exact read_bytes_exact r hb

theorem read_be32_be32 (n : Nat) (hn : n < 2 ^ 32) (r : List Nat) :
    bkp_read_be32 (be32 n ++ r) = some (n, r) := by
  unfold bkp_read_be32
  rw [read_bytes_exact_len r 4 (be32_allBytes n) (be32_length n)]
  simp only [be32, List.getD_cons_zero, List.getD_cons_succ]
  congr 1
  congr 1
  simp only [Nat.shiftRight_eq_div_pow]
  omega

theorem read_chunk_header_mk (ty data : List Nat) (c : Nat) (rest : List Nat)
    (hty : ty.length = 4) (htyb : allBytes ty) (hlen : data.length < 2 ^ 32) :
    bkp_read_chunk_header (mkChunk ty data c ++ rest) =
      some (data.length, ty, data ++ be32 c ++ rest) := by
  unfold bkp_read_chunk_header mkChunk
  have hassoc : be32 data.length ++ ty ++ data ++ be32 c ++ rest =
      be32 data.length ++ (ty ++ (data ++ be32 c ++ rest)) := by
    simp [List.append_assoc]
  rw [hassoc, read_be32_be32 data.length hlen]
  dsimp only
  rw [read_bytes_exact_len (data ++ be32 c ++ rest) 4 htyb hty]

theorem skip_verify_mismatch (data : List Nat) (c : Nat) (rest ty : List Nat)
    (hdb : allBytes data) (hc : c < 2 ^ 32)
    (hcrc : bkp_crc32 (ty ++ data) ≠ c) :
    bkp_skip_and_verify_chunk (data ++ be32 c ++ rest) data.length ty = some (false, rest) := by
  unfold bkp_skip_and_verify_chunk
  have hassoc : data ++ be32 c ++ rest = data ++ (be32 c ++ rest) := by
    simp [List.append_assoc]
  rw [hassoc, read_bytes_exact (be32 c ++ rest) hdb]
  dsimp only
  rw [read_be32_be32 c hc]
  dsimp only
  simp [hcrc]

set_option maxHeartbeats 1000000 in
/-- C2 (amended): a chunk CRC mismatch ends the chunk loop, and it is
fatal when no IDAT data has been accumulated yet — here: the first chunk
after the IHDR is of an unhandled type and its stored CRC does not match,
so `bkp_load_png` fails with no pixel buffer.  (The counterexample shows
the mismatch is *not* fatal once complete IDAT data has accumulated.) -/
theorem claim_C2_amended (inflate : List Nat → Option (List Nat)) (g2b : Nat → Nat → Nat)
    (ihdrB ty data rest : List Nat) (c : Nat) (ihdr : bkp_ihdr) (outs : Nat × Nat × Nat)
    (hih : bkp_read_ihdr (ihdrB ++ (mkChunk ty data c ++ rest)) =
      some (ihdr, mkChunk ty data c ++ rest))
    (hty : ty.length = 4) (htyb : allBytes ty) (hdb : allBytes data)
    (hnP : ty ≠ typPLTE) (hnI : ty ≠ typIDAT) (hnE : ty ≠ typIEND) (hnG : ty ≠ typgAMA)
    (hdlen : data.length < 2 ^ 32) (hc : c < 2 ^ 32)
    (hcrc : bkp_crc32 (ty ++ data) ≠ c) :
    bkp_load_png inflate g2b (pngSignature ++ (ihdrB ++ (mkChunk ty data c ++ rest))) outs =
      (none, outs) := by
  unfold bkp_load_png
  have hlen8 : ¬ (pngSignature ++ (ihdrB ++ (mkChunk ty data c ++ rest))).length < 8 := by
    rw [List.length_append]
    have h8 : pngSignature.length = 8 := rfl
    omega
  rw [if_neg hlen8]
  have hsig : ((pngSignature ++ (ihdrB ++ (mkChunk ty data c ++ rest))).take 8).map (· % 256) =
      pngSignature := by
    rw [show (8 : Nat) = pngSignature.length from rfl, List.take_left]
    rfl
  rw [if_neg (by simp [hsig])]
  have hdrop : (pngSignature ++ (ihdrB ++ (mkChunk ty data c ++ rest))).drop 8 =
      ihdrB ++ (mkChunk ty data c ++ rest) := by
    rw [show (8 : Nat) = pngSignature.length from rfl, List.drop_left]
  rw [hdrop, hih]
  dsimp only
  have hloop : bkp_chunk_loop ((mkChunk ty data c ++ rest).length + 1) initState
      (mkChunk ty data c ++ rest) = initState := by
    simp only [bkp_chunk_loop]
    rw [read_chunk_header_mk ty data c rest hty htyb hdlen]
    dsimp only
    rw [if_neg hnP, if_neg hnI, if_neg hnE, if_neg hnG]
    rw [skip_verify_mismatch data c rest ty hdb hc hcrc]
  rw [hloop]
  rfl

/-- Witness for C2 (amended) at a concrete file: valid IHDR followed by a
`"teSt"` chunk with stored CRC 0. -/
theorem claim_C2_witness :
    bkp_load_png bkp_inflate_stored g2bId
      (pngSignature ++ (ihdrChunk 1 1 8 0 0 0 0 ++
        (mkChunk [116, 101, 83, 116] [1, 2, 3] 0 ++ []))) (3, 4, 5) = (none, (3, 4, 5)) :=
  claim_C2_amended bkp_inflate_stored g2bId (ihdrChunk 1 1 8 0 0 0 0)
    [116, 101, 83, 116] [1, 2, 3] [] 0
    { width := 1, height := 1, bit_depth := 8, color_type := 0,
      compression_method := 0, filter_method := 0, interlace_method := 0 } (3, 4, 5)
    (by decide) (by decide) (by decide) (by decide) (by decide) (by decide) (by decide)
    (by decide) (by decide) (by decide) (by decide)

/-- Counterexample to C2 as stated: `fileGray1BadTrailer` contains a
`"teSt"` chunk whose stored CRC 0 differs from the computed CRC, after a
complete valid IDAT — yet `bkp_load_png` succeeds and returns the decoded
pixel, because `bkp_skip_and_verify_chunk`'s CRC failure merely breaks the
loop without discarding the accumulated IDAT data. -/
theorem claim_C2_counterexample :
    bkp_crc32 ([116, 101, 83, 116] ++ [1, 2, 3]) ≠ 0 ∧
    bkp_load_png bkp_inflate_stored g2bId fileGray1BadTrailer (0, 0, 0) =
      (some [127, 127, 127, 255], (1, 1, 0)) := by
  constructor
  · decide
  · decide

theorem filter_rows_ignores_tail (bpp stride : Nat) :
    ∀ (h : Nat) (prev : Option (List Nat)) (s t : List Nat),
      h * (1 + stride) ≤ s.length →
      bkp_filter_rows bpp stride h prev (s ++ t) = bkp_filter_rows bpp stride h prev s := by
  intro h
  induction h with
  | zero => intro prev s t _; rfl
  | succ m ih =>
      intro prev s t hlen
      cases s with
      | nil =>
          exfalso
          simp at hlen
      | cons a s' =>
          have hmul : (m + 1) * (1 + stride) = (1 + stride) + m * (1 + stride) := by ring
          simp only [List.length_cons] at hlen
          rw [hmul] at hlen
          have hst : stride ≤ s'.length := by omega
          rw [show ((a :: s') ++ t) = a :: (s' ++ t) from rfl]
          rw [bkp_filter_rows_cons, bkp_filter_rows_cons]
          have htake : (s' ++ t).take stride = s'.take stride := by
            rw [List.take_append_eq_append_take, show stride - s'.length = 0 by omega]
            simp
          have hdrop : (s' ++ t).drop stride = s'.drop stride ++ t := by
            rw [List.drop_append_eq_append_drop, show stride - s'.length = 0 by omega]
            simp
          rw [htake, hdrop]
          cases hrow : bkp_decode_row (a % 256) bpp prev ((s'.take stride).map (· % 256)) with
          | none => rfl
          | some row =>
              dsimp only
              rw [ih (some row) (s'.drop stride) t
                (by rw [List.length_drop]; omega)]

theorem stage_short {ihdr : bkp_ihdr} {hp : Bool} {pal : bkp_palette}
    {s : List Nat} {bpp : Nat}
    (hbpp : bpp_of ihdr.color_type = some bpp)
    (hshort : s.length < (bpp * ihdr.width + 1) * ihdr.height) :
    bkp_decode_stage ihdr hp pal s = none := by
  unfold bkp_decode_stage
  rw [hbpp]
  dsimp only
  rw [if_pos hshort]

theorem stage_ext {ihdr : bkp_ihdr} (hp : Bool) (pal : bkp_palette)
    (s t : List Nat) {bpp : Nat}
    (hbpp : bpp_of ihdr.color_type = some bpp)
    (hil : ihdr.interlace_method = 0)
    (hlen : (bpp * ihdr.width + 1) * ihdr.height ≤ s.length) :
    bkp_decode_stage ihdr hp pal (s ++ t) = bkp_decode_stage ihdr hp pal s := by
  unfold bkp_decode_stage
  rw [hbpp]
  dsimp only
  have e1 : ¬ ((s ++ t).length < (bpp * ihdr.width + 1) * ihdr.height) := by
    rw [List.length_append]
    omega
  have e2 : ¬ (s.length < (bpp * ihdr.width + 1) * ihdr.height) := by omega
  rw [if_neg e1, if_neg e2, hil]
  norm_num
  unfold bkp_filter_decode
  rw [filter_rows_ignores_tail bpp (ihdr.width * bpp) ihdr.height none s t
    (by have heq : ihdr.height * (1 + ihdr.width * bpp) = (bpp * ihdr.width + 1) * ihdr.height := by
          ring
        omega)]

/-- C6: in the non-interlaced path, decoding fails when the inflated
stream holds fewer than `height * (1 + width * bpp)` bytes, and with at
least that many bytes any trailing surplus is ignored — appending extra
bytes to the inflated stream leaves the decode result unchanged. -/
theorem claim_C6 (g2b : Nat → Nat → Nat) (file : List Nat) (outs : Nat × Nat × Nat)
    (ihdr : bkp_ihdr) (rest s t : List Nat) (bpp : Nat)
    (hih : bkp_read_ihdr (file.drop 8) = some (ihdr, rest))
    (hbpp : bpp_of ihdr.color_type = some bpp)
    (hil : ihdr.interlace_method = 0) :
    (s.length < (bpp * ihdr.width + 1) * ihdr.height →
       bkp_load_png (fun _ => some s) g2b file outs = (none, outs)) ∧
    ((bpp * ihdr.width + 1) * ihdr.height ≤ s.length →
       bkp_load_png (fun _ => some (s ++ t)) g2b file outs =
         bkp_load_png (fun _ => some s) g2b file outs) := by
  constructor
  · intro hshort
    rcases load_fail_shape (fun _ => some s) g2b file outs with heq | ⟨px, hpx⟩
    · exact heq
    · exfalso
      obtain ⟨ihdr₁, rest₁, ib, d, pixels, hih₁, hidat, hinf, hstage, _, _⟩ :=
        load_success_inv _ g2b file outs px hpx
      rw [hih] at hih₁
      have hpr : ihdr = ihdr₁ ∧ rest = rest₁ := by
        have := Option.some.inj hih₁
        exact ⟨congrArg Prod.fst this, congrArg Prod.snd this⟩
      obtain ⟨he1, he2⟩ := hpr
      subst he1
      subst he2
      have hds : s = d := Option.some.inj hinf
      subst hds
      rw [stage_short hbpp hshort] at hstage
      cases hstage
  · intro hlong
    unfold bkp_load_png
    by_cases h8 : file.length < 8
    · simp only [if_pos h8]
    simp only [if_neg h8]
    by_cases hsig : (file.take 8).map (· % 256) ≠ pngSignature
    · simp only [if_pos hsig]
    simp only [if_neg hsig]
    rw [hih]
    dsimp only
    cases hidat : (bkp_chunk_loop (rest.length + 1) initState rest).idat with
    | none => rfl
    | some ib =>
        dsimp only
        rw [stage_ext (bkp_chunk_loop (rest.length + 1) initState rest).havePlte
          (bkp_chunk_loop (rest.length + 1) initState rest).palette s t hbpp hil hlong]

/-- Witness for C6 on the concrete 1×1 grayscale file: a 1-byte inflated
stream fails, and trailing bytes after the 2 expected ones change
nothing. -/
theorem claim_C6_witness :
    bkp_load_png (fun _ => some [0]) g2bId fileGray1 (1, 2, 3) = (none, (1, 2, 3)) ∧
    bkp_load_png (fun _ => some ([0, 127] ++ [7, 7])) g2bId fileGray1 (1, 2, 3) =
      bkp_load_png (fun _ => some [0, 127]) g2bId fileGray1 (1, 2, 3) := by
  constructor
  · exact (claim_C6 g2bId fileGray1 (1, 2, 3)
      { width := 1, height := 1, bit_depth := 8, color_type := 0,
        compression_method := 0, filter_method := 0, interlace_method := 0 }
      (mkChunkOk typIDAT (mkZlibStored [0, 127]) ++ mkChunkOk typIEND [])
      [0] [] 1 (by decide) (by decide) (by decide)).1 (by decide)
  · exact (claim_C6 g2bId fileGray1 (1, 2, 3)
      { width := 1, height := 1, bit_depth := 8, color_type := 0,
        compression_method := 0, filter_method := 0, interlace_method := 0 }
      (mkChunkOk typIDAT (mkZlibStored [0, 127]) ++ mkChunkOk typIEND [])
      [0, 127] [7, 7] 1 (by decide) (by decide) (by decide)).2 (by decide)

/-- Counterexample to C8 as stated: a successfully decoded RGBA
(color type 6) image whose output alpha byte is 255 even though the
source has an alpha channel — "alpha = 255 iff the source lacked an
alpha channel" fails in the only-if direction. -/
theorem claim_C8_counterexample :
    bkp_load_png bkp_inflate_stored g2bId fileRGBA1 (0, 0, 0) =
      (some [255, 0, 0, 255], (1, 1, 6)) ∧
    ([255, 0, 0, 255] : List Nat).getD 3 0 = 255 ∧ (6 : Nat) ≠ 0 ∧ (6 : Nat) ≠ 2 ∧
    (6 : Nat) ≠ 3 := by
  refine ⟨by decide, by decide, by decide, by decide, by decide⟩

/-- Witness for C8 (amended) on a concrete 1×1 grayscale normalization. -/
theorem claim_C8_witness :
    (bkp_apply_gamma_correction g2bId 0 [5, 5, 5, 255]).getD 3 0 = 255 := by
  have h := (claim_C8_amended.2 g2bId 0 0 true palette0 [5] 1 [5, 5, 5, 255]
    (by decide) 0 (by decide)).1 (Or.inl rfl)
  simpa using h

/-- Witness for C9 at a concrete out-of-range index (7 with an empty
palette). -/
theorem claim_C9_witness :
    bkp_normalize 3 true palette0 [7] 1 = some (bkp_expand_palette [7] 1 palette0) ∧
    bkp_normalize 3 false palette0 [7] 1 = none ∧
    (bkp_expand_palette [7] 1 palette0).getD 3 0 =
      (palette0.entries.getD 0 ⟨0, 0, 0, 0⟩).a := by
  have h := claim_C9 [7] 1 palette0 0 (by decide) (by decide)
  refine ⟨h.1, h.2.1, ?_⟩
  simpa using h.2.2.2.2.2

end BkPng
